import Mathlib

/-!
Shallow embedding of the matrix-stacking core (src/matrix/src/stack.rs):
two composites of read-only matrices, `VerticalPair` and `HorizontalPair`,
together with the `EitherRow` row adaptor, and proofs of the claimed
properties.  Rust rows (lazy iterators of length `width`) are embedded as
`List` values; Rust iterators are embedded as explicit state machines
whose step returns the optional item together with the successor state.
-/

namespace Stack

/-- The external matrix capability contract consumed by the composites
(`width`, `height`, `get`, `row`, `row_slice`).  A leaf matrix is a record
of those five operations; rows are finite sequences, embedded as lists. -/
structure Matrix (α : Type) where
  width : Nat
  height : Nat
  get : Nat → Nat → α
  row : Nat → List α
  row_slice : Nat → List α

/-- A combination of two matrices, stacked together vertically.
Both fields are public in the source, so arbitrary values can be built
without going through `new`. -/
structure VerticalPair (α : Type) where
  first : Matrix α
  second : Matrix α

/-- A combination of two matrices, stacked together horizontally.
Both fields are public in the source. -/
structure HorizontalPair (α : Type) where
  first : Matrix α
  second : Matrix α

/-- The row adaptor: a tagged union wrapping either the first or the
second side's row representation. -/
inductive EitherRow (L R : Type) where
  | Left : L → EitherRow L R
  | Right : R → EitherRow L R

/-- VerticalPair::new — the assert_eq on widths is embedded as the
failure case of an Option: `none` models the fatal panic, in which case
no composite value is produced. -/
def VerticalPair.new {α : Type} (first second : Matrix α) :
    Option (VerticalPair α) :=
  if first.width = second.width then some ⟨first, second⟩ else none

/-- HorizontalPair::new — the assert_eq on heights embedded the same way. -/
def HorizontalPair.new {α : Type} (first second : Matrix α) :
    Option (HorizontalPair α) :=
  if first.height = second.height then some ⟨first, second⟩ else none

/-- VerticalPair::width — delegates to the first part. -/
def VerticalPair.width {α : Type} (p : VerticalPair α) : Nat :=
  p.first.width

/-- VerticalPair::height — the sum of the two heights.  Heights are
usize in the source; this is the ideal (unbounded) value of the sum. -/
def VerticalPair.height {α : Type} (p : VerticalPair α) : Nat :=
  p.first.height + p.second.height

/-- VerticalPair::height as executed by a release build: the usize
addition wraps modulo 2^64 on overflow (debug builds panic instead). -/
def VerticalPair.height_u64 {α : Type} (p : VerticalPair α) : Nat :=
  (p.first.height + p.second.height) % 2 ^ 64

/-- VerticalPair::get — rows below the first height come from the first
part, the rest from the second, with the row index shifted down. -/
def VerticalPair.get {α : Type} (p : VerticalPair α) (r c : Nat) : α :=
  if r < p.first.height then p.first.get r c
  else p.second.get (r - p.first.height) c

/-- VerticalPair::row — wraps the selected part's row in the adaptor,
tagging which side it came from. -/
def VerticalPair.row {α : Type} (p : VerticalPair α) (r : Nat) :
    EitherRow (List α) (List α) :=
  if r < p.first.height then EitherRow.Left (p.first.row r)
  else EitherRow.Right (p.second.row (r - p.first.height))

/-- VerticalPair::row_slice — identical selection logic, wrapping the
contiguous-slice representations instead. -/
def VerticalPair.row_slice {α : Type} (p : VerticalPair α) (r : Nat) :
    EitherRow (List α) (List α) :=
  if r < p.first.height then EitherRow.Left (p.first.row_slice r)
  else EitherRow.Right (p.second.row_slice (r - p.first.height))

/-- HorizontalPair::width — the sum of the two widths. -/
def HorizontalPair.width {α : Type} (p : HorizontalPair α) : Nat :=
  p.first.width + p.second.width

/-- HorizontalPair::height — delegates to the first part. -/
def HorizontalPair.height {α : Type} (p : HorizontalPair α) : Nat :=
  p.first.height

/-- HorizontalPair::get — columns below the first width come from the
first part, the rest from the second, with the column index shifted. -/
def HorizontalPair.get {α : Type} (p : HorizontalPair α) (r c : Nat) : α :=
  if c < p.first.width then p.first.get r c
  else p.second.get r (c - p.first.width)

/-- HorizontalPair::row — the Chain iterator of the two rows, embedded
as list concatenation. -/
def HorizontalPair.row {α : Type} (p : HorizontalPair α) (r : Nat) :
    List α :=
  p.first.row r ++ p.second.row r

/-- Iterator::next for EitherRow: delegates to whichever variant is
active.  An iterator over state type s is embedded as a step function
returning the optional item and the successor state. -/
def EitherRow.next {σL σR α : Type}
    (nl : σL → Option α × σL) (nr : σR → Option α × σR) :
    EitherRow σL σR → Option α × EitherRow σL σR
  | EitherRow.Left l => ((nl l).1, EitherRow.Left (nl l).2)
  | EitherRow.Right r => ((nr r).1, EitherRow.Right (nr r).2)

/-- Deref for EitherRow: exposes whichever variant is active as a
read-only view. -/
def EitherRow.deref {α : Type} :
    EitherRow (List α) (List α) → List α
  | EitherRow.Left l => l
  | EitherRow.Right r => r

/-- The step function of a row embedded as a list: yield the head and
keep the tail; an exhausted row keeps yielding nothing. -/
def listNext {α : Type} : List α → Option α × List α
  | [] => (none, [])
  | x :: xs => (some x, xs)

/-- The step function of a composite row: EitherRow over two list-backed
rows. -/
def rowNext {α : Type} :
    EitherRow (List α) (List α) → Option α × EitherRow (List α) (List α) :=
  EitherRow.next listNext listNext

/-- Drive a step function for at most the given number of steps,
collecting the items yielded before the first exhaustion. -/
def runIter {σ α : Type} (step : σ → Option α × σ) :
    Nat → σ → List α
  | 0, _ => []
  | fuel + 1, s =>
    match step s with
    | (none, _) => []
    | (some a, t) => a :: runIter step fuel t

/-- Apply a step function n+1 times, returning the last step's result. -/
def stepN {σ α : Type} (step : σ → Option α × σ) :
    Nat → σ → Option α × σ
  | 0, s => step s
  | n + 1, s => stepN step n (step s).2

/-- Leaf matrix used in concrete witnesses: a row-major list of rows
with a declared width; all access operations read from the lists. -/
def mkMatrix (rows : List (List Nat)) (w : Nat) : Matrix Nat :=
  { width := w
  , height := rows.length
  , get := fun r c => (rows.getD r []).getD c 0
  , row := fun r => rows.getD r []
  , row_slice := fun r => rows.getD r [] }

/-- Scenario matrix A = 2 by 3, rows [1,2,3] and [4,5,6]. -/
def matA : Matrix Nat := mkMatrix [[1, 2, 3], [4, 5, 6]] 3

/-- Scenario matrix B = 1 by 3, row [7,8,9]. -/
def matB : Matrix Nat := mkMatrix [[7, 8, 9]] 3

/-- Width-4 matrix used for the mismatch scenarios. -/
def matWide : Matrix Nat := mkMatrix [[0, 0, 0, 0]] 4

/-- A leaf matrix whose declared height is the largest usize value; its
rows are irrelevant to the height computation. -/
def hugeMat : Matrix Nat :=
  { width := 3
  , height := 2 ^ 64 - 1
  , get := fun _ _ => 0
  , row := fun _ => []
  , row_slice := fun _ => [] }

/-- C1: for a VerticalPair of A and B with equal widths and in-range
indices, get(r,c) is A.get(r,c) when r is below the height of A, and
B.get(r - A.height, c) otherwise. -/
theorem C1_verticalPair_get {α : Type} (A B : Matrix α) (r c : Nat)
    (hw : A.width = B.width)
    (hr : r < (VerticalPair.mk A B).height)
    (hc : c < (VerticalPair.mk A B).width) :
    (r < A.height → (VerticalPair.mk A B).get r c = A.get r c) ∧
    (A.height ≤ r →
      (VerticalPair.mk A B).get r c = B.get (r - A.height) c) := by
  constructor
  · intro h
    simp [VerticalPair.get, h]
  · intro h
    simp [VerticalPair.get, Nat.not_lt.mpr h]

/-- C1 witness: scenario 1, get(2,1) of Vertical(A,B) falls in B and
equals B.get(0,1) = 8. -/
theorem C1_witness :
    (VerticalPair.mk matA matB).get 2 1 = matB.get (2 - matA.height) 1 ∧
    (VerticalPair.mk matA matB).get 2 1 = 8 :=
  ⟨(C1_verticalPair_get matA matB 2 1 (by decide) (by decide)
      (by decide)).2 (by decide), by decide⟩

/-- C3: constructing a VerticalPair with unequal widths, or a
HorizontalPair with unequal heights, fails and produces no composite;
construction succeeds unconditionally otherwise, producing exactly the
pair of the two parts. -/
theorem C3_construction_check {α : Type} (A B : Matrix α) :
    (A.width ≠ B.width → VerticalPair.new A B = none) ∧
    (A.width = B.width →
      VerticalPair.new A B = some (VerticalPair.mk A B)) ∧
    (A.height ≠ B.height → HorizontalPair.new A B = none) ∧
    (A.height = B.height →
      HorizontalPair.new A B = some (HorizontalPair.mk A B)) := by
  refine ⟨fun h => ?_, fun h => ?_, fun h => ?_, fun h => ?_⟩ <;>
    simp [VerticalPair.new, HorizontalPair.new, h]

/-- C3 witness: scenario 3, Vertical(A, width-4 matrix) fails to
construct, while Vertical(A,B) succeeds. -/
theorem C3_witness :
    VerticalPair.new matA matWide = none ∧
    VerticalPair.new matA matB = some (VerticalPair.mk matA matB) :=
  ⟨(C3_construction_check matA matWide).1 (by decide),
   (C3_construction_check matA matB).2.1 (by decide)⟩

/-- Driving the composite row stepper on a Left-tagged list with enough
fuel yields exactly that list. -/
theorem runIter_rowNext_left {α : Type} (l : List α) :
    ∀ fuel, l.length ≤ fuel →
      runIter rowNext fuel (EitherRow.Left l) = l := by
  induction l with
  | nil =>
    intro fuel _
    cases fuel <;> simp [runIter, rowNext, EitherRow.next, listNext]
  | cons x xs ih =>
    intro fuel hf
    cases fuel with
    | zero => simp at hf
    | succ n =>
      simp only [runIter, rowNext, EitherRow.next, listNext]
      exact congrArg (x :: ·) (ih n (Nat.succ_le_succ_iff.mp hf))

/-- Driving the composite row stepper on a Right-tagged list with enough
fuel yields exactly that list. -/
theorem runIter_rowNext_right {α : Type} (l : List α) :
    ∀ fuel, l.length ≤ fuel →
      runIter rowNext fuel (EitherRow.Right l) = l := by
  induction l with
  | nil =>
    intro fuel _
    cases fuel <;> simp [runIter, rowNext, EitherRow.next, listNext]
  | cons x xs ih =>
    intro fuel hf
    cases fuel with
    | zero => simp at hf
    | succ n =>
      simp only [runIter, rowNext, EitherRow.next, listNext]
      exact congrArg (x :: ·) (ih n (Nat.succ_le_succ_iff.mp hf))

/-- An exhausted composite row stepper is a fixed point: when it yields
nothing, it also leaves the state unchanged. -/
theorem rowNext_exhausted {α : Type}
    (e : EitherRow (List α) (List α)) (h : (rowNext e).1 = none) :
    rowNext e = (none, e) := by
  cases e with
  | Left l => cases l <;> simp_all [rowNext, EitherRow.next, listNext]
  | Right r => cases r <;> simp_all [rowNext, EitherRow.next, listNext]

/-- C6: for a VerticalPair whose leaves satisfy the matrix capability
contract (row lengths equal the width, and row_slice has identical
contents to row), and a valid row index r, the sequence yielded by
row(r) and the view exposed by row_slice(r) are element-wise identical
and contain width() elements. -/
theorem C6_row_matches_row_slice {α : Type} (A B : Matrix α) (r : Nat)
    (hw : A.width = B.width)
    (hAs : ∀ i, i < A.height → A.row_slice i = A.row i)
    (hBs : ∀ i, i < B.height → B.row_slice i = B.row i)
    (hAl : ∀ i, i < A.height → (A.row i).length = A.width)
    (hBl : ∀ i, i < B.height → (B.row i).length = B.width)
    (hr : r < (VerticalPair.mk A B).height) :
    runIter rowNext ((VerticalPair.mk A B).width)
        ((VerticalPair.mk A B).row r)
      = ((VerticalPair.mk A B).row_slice r).deref ∧
    (((VerticalPair.mk A B).row_slice r).deref).length
      = (VerticalPair.mk A B).width := by
  by_cases h : r < A.height
  · have hlen : (A.row r).length = A.width := hAl r h
    have hrow : (VerticalPair.mk A B).row r = EitherRow.Left (A.row r) := by
      simp [VerticalPair.row, h]
    have hslice : (VerticalPair.mk A B).row_slice r
        = EitherRow.Left (A.row_slice r) := by
      simp [VerticalPair.row_slice, h]
    rw [hrow, hslice]
    simp only [EitherRow.deref, hAs r h]
    exact ⟨runIter_rowNext_left (A.row r) _ (Nat.le_of_eq hlen), hlen⟩
  · have hB : r - A.height < B.height := by
      have : r < A.height + B.height := hr
      omega
    have hlen : (B.row (r - A.height)).length = A.width := by
      rw [hBl _ hB, hw]
    have hrow : (VerticalPair.mk A B).row r
        = EitherRow.Right (B.row (r - A.height)) := by
      simp [VerticalPair.row, h]
    have hslice : (VerticalPair.mk A B).row_slice r
        = EitherRow.Right (B.row_slice (r - A.height)) := by
      simp [VerticalPair.row_slice, h]
    rw [hrow, hslice]
    simp only [EitherRow.deref, hBs _ hB]
    exact ⟨runIter_rowNext_right _ _ (Nat.le_of_eq hlen), hlen⟩

/-- C6 witness: scenario 1, for Vertical(A,B) at row 2 both paths give
the three-element row [7,8,9]. -/
theorem C6_witness :
    runIter rowNext ((VerticalPair.mk matA matB).width)
        ((VerticalPair.mk matA matB).row 2)
      = ((VerticalPair.mk matA matB).row_slice 2).deref ∧
    (((VerticalPair.mk matA matB).row_slice 2).deref).length
      = (VerticalPair.mk matA matB).width :=
  C6_row_matches_row_slice matA matB 2 (by decide)
    (by decide) (by decide) (by decide) (by decide) (by decide)

/-- C7 counterexample: at heights 2^64 - 1 and 1 the usize addition
performed by VerticalPair::height wraps around to 0 in a release build
instead of signalling an error: the computed height differs from the
mathematical sum, refuting the claim that overflow is never silently
wrapped. -/
theorem C7_counterexample :
    (VerticalPair.mk hugeMat matB).height_u64 = 0 ∧
    (VerticalPair.mk hugeMat matB).height_u64
      ≠ hugeMat.height + matB.height := by
  constructor
  · show (2 ^ 64 - 1 + (mkMatrix [[7, 8, 9]] 3).height) % 2 ^ 64 = 0
    norm_num [mkMatrix]
  · show (2 ^ 64 - 1 + (mkMatrix [[7, 8, 9]] 3).height) % 2 ^ 64
      ≠ 2 ^ 64 - 1 + (mkMatrix [[7, 8, 9]] 3).height
    norm_num [mkMatrix]

/-- C7 amended: VerticalPair::height computes the usize sum of the two
heights; in a release build overflow silently wraps modulo 2^64 (only
debug builds panic), and whenever the sum stays below 2^64 the exact
sum is returned. -/
theorem C7_height_wraps {α : Type} (A B : Matrix α) :
    (VerticalPair.mk A B).height_u64 = (A.height + B.height) % 2 ^ 64 ∧
    (A.height + B.height < 2 ^ 64 →
      (VerticalPair.mk A B).height_u64 = A.height + B.height) := by
  refine ⟨rfl, fun h => ?_⟩
  show (A.height + B.height) % 2 ^ 64 = A.height + B.height
  exact Nat.mod_eq_of_lt h

/-- C7 witness: scenario 1, the heights 2 and 1 sum without overflow
and the computed height is exactly 3. -/
theorem C7_witness :
    matA.height + matB.height < 2 ^ 64 ∧
    (VerticalPair.mk matA matB).height_u64 = matA.height + matB.height :=
  ⟨by norm_num [matA, matB, mkMatrix],
   (C7_height_wraps matA matB).2 (by norm_num [matA, matB, mkMatrix])⟩

/-- C8: the EitherRow sequence producer forwards each advance to
whichever variant is active; a list-backed composite row yields its
elements finitely (any sufficient fuel produces exactly the underlying
row and nothing more); and once an advance has yielded no item, every
subsequent advance also yields nothing. -/
theorem C8_eitherRow_iterator {σL σR α : Type}
    (nl : σL → Option α × σL) (nr : σR → Option α × σR)
    (l : σL) (s : σR) (e : EitherRow (List α) (List α)) :
    EitherRow.next nl nr (EitherRow.Left l)
      = ((nl l).1, EitherRow.Left (nl l).2) ∧
    EitherRow.next nl nr (EitherRow.Right s)
      = ((nr s).1, EitherRow.Right (nr s).2) ∧
    (∀ fuel, e.deref.length ≤ fuel → runIter rowNext fuel e = e.deref) ∧
    ((rowNext e).1 = none → ∀ n, (stepN rowNext n e).1 = none) := by
  refine ⟨rfl, rfl, ?_, ?_⟩
  · intro fuel hf
    cases e with
    | Left u => exact runIter_rowNext_left u fuel hf
    | Right u => exact runIter_rowNext_right u fuel hf
  · intro h n
    induction n with
    | zero => exact h
    | succ k ih =>
      have hfix : rowNext e = (none, e) := rowNext_exhausted e h
      show (stepN rowNext k (rowNext e).2).1 = none
      rw [hfix]
      exact ih

/-- C8 witness: a Left-tagged two-element row yields exactly its two
elements, and an exhausted Right-tagged row yields nothing on every
later advance. -/
theorem C8_witness :
    runIter rowNext 2 (EitherRow.Left [1, 2]) = [1, 2] ∧
    (stepN rowNext 5 (EitherRow.Right ([] : List Nat))).1 = none :=
  ⟨(C8_eitherRow_iterator listNext listNext ([] : List Nat)
      ([] : List Nat) (EitherRow.Left [1, 2])).2.2.1 2 (by decide),
   (C8_eitherRow_iterator listNext listNext ([] : List Nat)
      ([] : List Nat) (EitherRow.Right ([] : List Nat))).2.2.2
      (by decide) 5⟩

/-- C10: every index subtraction in the composites sits in the branch
whose guard makes it exact: when the else branch of VerticalPair's get,
row or row_slice runs, the first height is at most r, so r minus it
followed by adding it back recovers r (no underflow); likewise for the
column subtraction in HorizontalPair's get. The guarded branch performs
no subtraction at all. -/
theorem C10_subtraction_guarded {α : Type} (A B : Matrix α) (r c : Nat) :
    (r < A.height →
      (VerticalPair.mk A B).get r c = A.get r c ∧
      (VerticalPair.mk A B).row r = EitherRow.Left (A.row r) ∧
      (VerticalPair.mk A B).row_slice r
        = EitherRow.Left (A.row_slice r)) ∧
    (¬ r < A.height →
      A.height ≤ r ∧ A.height + (r - A.height) = r ∧
      (VerticalPair.mk A B).get r c = B.get (r - A.height) c ∧
      (VerticalPair.mk A B).row r
        = EitherRow.Right (B.row (r - A.height)) ∧
      (VerticalPair.mk A B).row_slice r
        = EitherRow.Right (B.row_slice (r - A.height))) ∧
    (c < A.width → (HorizontalPair.mk A B).get r c = A.get r c) ∧
    (¬ c < A.width →
      A.width ≤ c ∧ A.width + (c - A.width) = c ∧
      (HorizontalPair.mk A B).get r c = B.get r (c - A.width)) := by
  refine ⟨fun h => ?_, fun h => ?_, fun h => ?_, fun h => ?_⟩
  · exact ⟨by simp [VerticalPair.get, h], by simp [VerticalPair.row, h],
      by simp [VerticalPair.row_slice, h]⟩
  · refine ⟨Nat.not_lt.mp h, by omega, ?_, ?_, ?_⟩
    · simp [VerticalPair.get, h]
    · simp [VerticalPair.row, h]
    · simp [VerticalPair.row_slice, h]
  · simp [HorizontalPair.get, h]
  · exact ⟨Nat.not_lt.mp h, by omega, by simp [HorizontalPair.get, h]⟩

/-- C10 witness: an out-of-range row index 5 on Vertical(A,B) still
takes the else branch with an exact subtraction: the first height 2 is
at most 5, adding it back to 5 - 2 recovers 5, and get delegates to B
at row 3. -/
theorem C10_witness :
    matA.height ≤ 5 ∧ matA.height + (5 - matA.height) = 5 ∧
    (VerticalPair.mk matA matB).get 5 1
      = matB.get (5 - matA.height) 1 := by
  have h := (C10_subtraction_guarded matA matB 5 1).2.1 (by decide)
  exact ⟨h.1, h.2.1, h.2.2.1⟩

end Stack
